import Mathlib

/-!
Verification of the a8n changeset-counts reconstruction
(`src/enterprise/pkg/a8n/counts.go`) and the webhook signature scheme
(`sign` in the repo's webhook test harness), as a shallow embedding in Lean.

Go `time.Time` values are modelled as `Int` nanoseconds since an arbitrary
epoch; `t.Before u` is `t < u`, `t.Equal u` is `t = u`, `t.After u` is
`u < t`, and `t.Add d` is `t + d`.  Go `int32` counters are modelled as
`Int` (none of the verified properties depend on 32-bit wrap-around).
-/

namespace A8N

/-- Go's `24 * time.Hour` in nanoseconds. -/
def day : Int := 24 * 60 * 60 * 1000000000

/-- `a8n.ChangesetEventKind`: the event kinds relevant to `CalcCounts`.
The Go switch statement matches `GitHubClosed`, `GitHubReopened` and
`GitHubMerged`; every other kind (reviews carry a state string, and the
enumeration is open-ended) falls through the switch unchanged. -/
inductive ChangesetEventKind where
  | closed
  | reopened
  | merged
  | reviewed (state : String)
  | other (tag : String)
  deriving DecidableEq, Repr

/-- The `Event` interface of counts.go: a timestamp, a kind and the owning
changeset id. -/
structure Event where
  timestamp : Int
  kind : ChangesetEventKind
  changeset : Int
  deriving DecidableEq, Repr

/-- `a8n.Changeset`, restricted to what `CalcCounts` reads: its id and its
external creation timestamp.  Modelled from the spec: the Go method
`Changeset.ExternalCreatedAt` (defined in `internal/a8n`, not under `src/`)
extracts the authoritative "opened" instant from the changeset's
platform-specific metadata and fails when it is unavailable; we model that
outcome directly as an `Option Int` field. -/
structure Changeset where
  id : Int
  externalCreatedAt : Option Int
  deriving DecidableEq, Repr

/-- `ChangesetCounts` from counts.go: a timestamp and seven counters. -/
structure ChangesetCounts where
  time : Int
  total : Int := 0
  merged : Int := 0
  closed : Int := 0
  open_ : Int := 0
  openApproved : Int := 0
  openChangesRequested : Int := 0
  openPending : Int := 0
  deriving DecidableEq, Repr

/-- Errors `CalcCounts` can return.  Modelled from the spec: the only error
produced is `MissingCreationTime`, from `Changeset.ExternalCreatedAt`
(defined outside `src/`). -/
inductive CalcError where
  | missingCreationTime
  deriving DecidableEq, Repr

/-- The backward walk of `generateTimestamps` takes strictly smaller steps
in the measure `(t + day - start).toNat`. -/
lemma genBack_dec (start t : Int) (h : start ≤ t) :
    (t - day + day - start).toNat < (t + day - start).toNat := by
  have hd : day = 86400000000000 := by decide
  rw [hd]
  omega

/-- The inner loop of `generateTimestamps`: walk backwards from `t` while
`t.After(start) || t.Equal(start)`, i.e. `start ≤ t`, collecting instants
in backward order. -/
def genTimestampsBack (start : Int) (t : Int) : List Int :=
  if h : start ≤ t then t :: genTimestampsBack start (t - day) else []
  termination_by (t + day - start).toNat
  decreasing_by exact genBack_dec start t h

/-- `generateTimestamps` from counts.go: walk backwards from `end` to
`>= start` in 1-day intervals, then reverse, so the sequence always ends
exactly on `end`. -/
def generateTimestamps (start end_ : Int) : List Int :=
  (genTimestampsBack start end_).reverse

/-- One iteration of the event switch in `CalcCounts`: how a single event
already known to satisfy `timestamp ≤ t` mutates the running counts. -/
def applyEvent (cc : ChangesetCounts) (e : Event) : ChangesetCounts :=
  match e.kind with
  | .closed => { cc with open_ := cc.open_ - 1, closed := cc.closed + 1 }
  | .reopened => { cc with open_ := cc.open_ + 1, closed := cc.closed - 1 }
  | .merged => { cc with merged := cc.merged + 1, open_ := cc.open_ - 1 }
  | _ => cc

/-- The per-snapshot body of `CalcCounts` for one changeset: if the
changeset was opened on or before the snapshot instant it counts towards
`Total` and `Open`, and then every one of its events with
`timestamp ≤ t` (Go: not `After(t)`) is applied in order; otherwise the
snapshot is left unchanged (`continue`). -/
def applyChangesetAt (openedAt : Int) (events : List Event)
    (cc : ChangesetCounts) : ChangesetCounts :=
  if openedAt ≤ cc.time then
    (events.filter (fun e => e.timestamp ≤ cc.time)).foldl applyEvent
      { cc with total := cc.total + 1, open_ := cc.open_ + 1 }
  else
    cc

/-- Insertion step of the event sort: `Events.Less` compares timestamps
with `Before`, so ties keep their relative input order here (the Go sort is
unstable on ties; this embedding fixes one concrete tie order, and the
verified divergences below hold in either tie order). -/
def insertEvent (e : Event) : List Event → List Event
  | [] => [e]
  | f :: fs =>
    if e.timestamp < f.timestamp then e :: f :: fs else f :: insertEvent e fs

/-- `sort.Sort(events)` with `Events.Less`: sort all events once by their
timestamps. -/
def sortEvents (es : List Event) : List Event := es.foldr insertEvent []

/-- The empty snapshot allocated for a sampled instant. -/
def emptyCounts (t : Int) : ChangesetCounts := { time := t }

/-- Process one changeset: resolve its opened instant (failing the whole
computation with `MissingCreationTime` when absent), then update every
snapshot from the changeset's event group. -/
def calcChangeset (sorted : List Event) (counts : List ChangesetCounts)
    (c : Changeset) : Except CalcError (List ChangesetCounts) :=
  match c.externalCreatedAt with
  | none => .error .missingCreationTime
  | some openedAt =>
    .ok (counts.map
      (applyChangesetAt openedAt (sorted.filter (fun e => e.changeset = c.id))))

/-- `CalcCounts` from counts.go: allocate one snapshot per sampled instant,
sort all events once, group them by changeset id, and replay each
changeset's history into every snapshot.  The Go code iterates a map whose
order is unspecified; this embedding iterates the changeset list in order
(order-independence is proved below). -/
def CalcCounts (start end_ : Int) (cs : List Changeset) (es : List Event) :
    Except CalcError (List ChangesetCounts) :=
  let ts := generateTimestamps start end_
  let counts := ts.map emptyCounts
  let sorted := sortEvents es
  cs.foldlM (calcChangeset sorted) counts

/-! ### Characterizing `CalcCounts` as a pure fold -/

/-- The successful branch of `calcChangeset`, as a total function (the
`getD 0` default is never reached when the creation time is present). -/
def changesetStep (sorted : List Event) (counts : List ChangesetCounts)
    (c : Changeset) : List ChangesetCounts :=
  counts.map (applyChangesetAt (c.externalCreatedAt.getD 0)
    (sorted.filter (fun e => e.changeset = c.id)))

lemma calcChangeset_eq_step {c : Changeset} (h : c.externalCreatedAt.isSome)
    (sorted : List Event) (counts : List ChangesetCounts) :
    calcChangeset sorted counts c = .ok (changesetStep sorted counts c) := by
  rcases c with ⟨id, created⟩
  cases created with
  | none => simp at h
  | some o => simp [calcChangeset, changesetStep]

lemma foldlM_calcChangeset_ok {cs : List Changeset}
    (h : ∀ c ∈ cs, c.externalCreatedAt.isSome) (sorted : List Event)
    (counts : List ChangesetCounts) :
    cs.foldlM (calcChangeset sorted) counts =
      .ok (cs.foldl (changesetStep sorted) counts) := by
  induction cs generalizing counts with
  | nil => rfl
  | cons c cs ih =>
    have hc : c.externalCreatedAt.isSome := h c (by simp)
    have htail : ∀ c' ∈ cs, c'.externalCreatedAt.isSome := fun c' hm => h c' (by simp [hm])
    simp only [List.foldlM_cons, List.foldl_cons, calcChangeset_eq_step hc]
    simpa using ih htail (changesetStep sorted counts c)

lemma foldlM_calcChangeset_error {cs : List Changeset}
    (h : ∃ c ∈ cs, c.externalCreatedAt = none) (sorted : List Event)
    (counts : List ChangesetCounts) :
    cs.foldlM (calcChangeset sorted) counts = .error .missingCreationTime := by
  induction cs generalizing counts with
  | nil => simp at h
  | cons c cs ih =>
    by_cases hc : c.externalCreatedAt = none
    · simp only [List.foldlM_cons, calcChangeset, hc]
      rfl
    · have hc' : c.externalCreatedAt.isSome := by
        cases hcc : c.externalCreatedAt with
        | none => exact absurd hcc hc
        | some o => simp
      have htail : ∃ c' ∈ cs, c'.externalCreatedAt = none := by
        rcases h with ⟨c', hm, hnone⟩
        rcases List.mem_cons.mp hm with rfl | hm'
        · exact absurd hnone hc
        · exact ⟨c', hm', hnone⟩
      simp only [List.foldlM_cons, calcChangeset_eq_step hc']
      simpa using ih htail (changesetStep sorted counts c)

lemma CalcCounts_eq_ok {cs : List Changeset}
    (h : ∀ c ∈ cs, c.externalCreatedAt.isSome) (start end_ : Int)
    (es : List Event) :
    CalcCounts start end_ cs es =
      .ok (cs.foldl (changesetStep (sortEvents es))
        ((generateTimestamps start end_).map emptyCounts)) :=
  foldlM_calcChangeset_ok h _ _

lemma CalcCounts_eq_error {cs : List Changeset}
    (h : ∃ c ∈ cs, c.externalCreatedAt = none) (start end_ : Int)
    (es : List Event) :
    CalcCounts start end_ cs es = .error .missingCreationTime :=
  foldlM_calcChangeset_error h _ _

/-- A successful `CalcCounts` forces every changeset to have a creation
time (otherwise the whole computation errors). -/
lemma all_isSome_of_ok {cs : List Changeset} {start end_ : Int}
    {es : List Event} {counts : List ChangesetCounts}
    (h : CalcCounts start end_ cs es = .ok counts) :
    ∀ c ∈ cs, c.externalCreatedAt.isSome := by
  by_contra hnot
  push_neg at hnot
  rcases hnot with ⟨c, hm, hns⟩
  have : c.externalCreatedAt = none := by
    cases hcc : c.externalCreatedAt with
    | none => rfl
    | some o => rw [hcc] at hns; simp at hns
  rw [CalcCounts_eq_error ⟨c, hm, this⟩] at h
  exact Except.noConfusion h

/-! ### Invariants preserved along the computation -/

section Invariants

variable {P : ChangesetCounts → Prop}

lemma foldl_applyEvent_inv (hstep : ∀ cc e, P cc → P (applyEvent cc e)) :
    ∀ (l : List Event) (cc : ChangesetCounts), P cc → P (l.foldl applyEvent cc) := by
  intro l
  induction l with
  | nil => intro cc h; exact h
  | cons e l ih => intro cc h; exact ih _ (hstep cc e h)

lemma applyChangesetAt_inv
    (hbase : ∀ cc : ChangesetCounts, P cc →
      P { cc with total := cc.total + 1, open_ := cc.open_ + 1 })
    (hstep : ∀ cc e, P cc → P (applyEvent cc e))
    {cc : ChangesetCounts} (h : P cc) (o : Int) (evs : List Event) :
    P (applyChangesetAt o evs cc) := by
  unfold applyChangesetAt
  split
  · exact foldl_applyEvent_inv hstep _ _ (hbase cc h)
  · exact h

lemma foldl_changesetStep_inv
    (hbase : ∀ cc : ChangesetCounts, P cc →
      P { cc with total := cc.total + 1, open_ := cc.open_ + 1 })
    (hstep : ∀ cc e, P cc → P (applyEvent cc e)) (sorted : List Event) :
    ∀ (cs : List Changeset) (counts : List ChangesetCounts),
      (∀ cc ∈ counts, P cc) →
      ∀ cc ∈ cs.foldl (changesetStep sorted) counts, P cc := by
  intro cs
  induction cs with
  | nil => intro counts h; simpa using h
  | cons c cs ih =>
    intro counts h
    simp only [List.foldl_cons]
    refine ih _ ?_
    intro cc hm
    rcases List.mem_map.mp hm with ⟨cc₀, hm₀, rfl⟩
    exact applyChangesetAt_inv hbase hstep (h cc₀ hm₀) _ _

/-- Any per-snapshot property that holds of the empty snapshot and is
preserved by the opened-changeset contribution and by every event
application holds of every snapshot `CalcCounts` returns. -/
lemma CalcCounts_inv
    (hempty : ∀ t, P (emptyCounts t))
    (hbase : ∀ cc : ChangesetCounts, P cc →
      P { cc with total := cc.total + 1, open_ := cc.open_ + 1 })
    (hstep : ∀ cc e, P cc → P (applyEvent cc e))
    {start end_ : Int} {cs : List Changeset} {es : List Event}
    {counts : List ChangesetCounts}
    (h : CalcCounts start end_ cs es = .ok counts) :
    ∀ cc ∈ counts, P cc := by
  have hall := all_isSome_of_ok h
  rw [CalcCounts_eq_ok hall] at h
  have hcounts := Except.ok.inj h
  subst hcounts
  refine foldl_changesetStep_inv hbase hstep _ _ _ ?_
  intro cc hm
  rcases List.mem_map.mp hm with ⟨t, _, rfl⟩
  exact hempty t

end Invariants

/-! ### The shape of the sampled instant sequence -/

lemma genBack_cons {start t : Int} (h : start ≤ t) :
    genTimestampsBack start t = t :: genTimestampsBack start (t - day) := by
  rw [genTimestampsBack]
  simp [h]

lemma genBack_nil {start t : Int} (h : t < start) :
    genTimestampsBack start t = [] := by
  rw [genTimestampsBack]
  simp [not_le.mpr h]

/-- The backward walk produces exactly `t, t - day, t - 2·day, …`. -/
lemma genBack_closed_form (start t : Int) :
    genTimestampsBack start t =
      (List.range (genTimestampsBack start t).length).map
        (fun (i : Nat) => t - (i : Int) * day) := by
  induction t using genTimestampsBack.induct start with
  | case1 t h ih =>
    rw [genBack_cons h]
    rw [List.length_cons, List.range_succ_eq_map, List.map_cons, List.map_map]
    refine congrArg₂ List.cons (by simp) (ih.trans (List.map_congr_left ?_))
    intro i _
    simp only [Function.comp_apply]
    push_cast
    ring
  | case2 t h => rw [genBack_nil (not_le.mp h)]; simp

lemma genBack_mem {start t : Int} :
    ∀ x ∈ genTimestampsBack start t, start ≤ x ∧ x ≤ t := by
  induction t using genTimestampsBack.induct start with
  | case1 t h ih =>
    rw [genBack_cons h]
    intro x hx
    rcases List.mem_cons.mp hx with rfl | hx'
    · exact ⟨h, le_refl x⟩
    · obtain ⟨ha, hb⟩ := ih x hx'
      have hd : day = 86400000000000 := by decide
      rw [hd] at hb
      exact ⟨ha, by omega⟩
  | case2 t h =>
    rw [genBack_nil (not_le.mp h)]
    intro x hx
    exact absurd hx (List.not_mem_nil x)

/-- Bridge between positional access with a proof and `getD`. -/
lemma list_get_eq_getD (l : List Int) (i : Nat) (h : i < l.length) :
    l.get ⟨i, h⟩ = l.getD i 0 := by
  simp [List.getD_eq_getElem?_getD, List.getElem?_eq_getElem h]

lemma genBack_getD {start t : Int} {k : Nat}
    (hk : k < (genTimestampsBack start t).length) :
    (genTimestampsBack start t).getD k 0 = t - (k : Int) * day := by
  have h1 : (genTimestampsBack start t)[k]? = some (t - (k : Int) * day) := by
    conv_lhs => rw [genBack_closed_form]
    simp [List.getElem?_map, hk]
  rw [List.getD_eq_getElem?_getD, h1]
  rfl

/-- Every element of `generateTimestamps start end` is `end - j·day` for
the reversed index `j`. -/
lemma generateTimestamps_getD {start end_ : Int} {i : Nat}
    (hi : i < (generateTimestamps start end_).length) :
    (generateTimestamps start end_).getD i 0 =
      end_ - (((generateTimestamps start end_).length : Int) - 1 - (i : Int)) * day := by
  have hlen : (generateTimestamps start end_).length =
      (genTimestampsBack start end_).length := by
    unfold generateTimestamps
    simp
  have hi' : i < (genTimestampsBack start end_).length := hlen ▸ hi
  have hj : (genTimestampsBack start end_).length - 1 - i <
      (genTimestampsBack start end_).length := by omega
  have h2 := genBack_getD hj
  have h3 : (generateTimestamps start end_).getD i 0 =
      (genTimestampsBack start end_).getD
        ((genTimestampsBack start end_).length - 1 - i) 0 := by
    unfold generateTimestamps
    rw [List.getD_eq_getElem?_getD, List.getElem?_reverse hi',
      ← List.getD_eq_getElem?_getD]
  rw [h3, h2, hlen]
  have h4 : (((genTimestampsBack start end_).length - 1 - i : Nat) : Int) =
      ((genTimestampsBack start end_).length : Int) - 1 - (i : Int) := by
    omega
  rw [h4]

lemma generateTimestamps_mem {start end_ : Int} :
    ∀ x ∈ generateTimestamps start end_, start ≤ x ∧ x ≤ end_ := by
  intro x hx
  exact genBack_mem x (List.mem_reverse.mp hx)

lemma generateTimestamps_ne_nil {start end_ : Int} (h : start ≤ end_) :
    generateTimestamps start end_ ≠ [] := by
  unfold generateTimestamps
  rw [genBack_cons h]
  simp

lemma generateTimestamps_getLast {start end_ : Int} (h : start ≤ end_) :
    (generateTimestamps start end_).getLast? = some end_ := by
  unfold generateTimestamps
  rw [List.getLast?_reverse, genBack_cons h]
  rfl

lemma generateTimestamps_nil {start end_ : Int} (h : end_ < start) :
    generateTimestamps start end_ = [] := by
  unfold generateTimestamps
  rw [genBack_nil h]
  rfl

/-- Consecutive sampled instants differ by exactly one day. -/
lemma generateTimestamps_step {start end_ : Int} (i : Nat)
    (hi : i + 1 < (generateTimestamps start end_).length) :
    (generateTimestamps start end_).getD (i + 1) 0 =
      (generateTimestamps start end_).getD i 0 + day := by
  rw [generateTimestamps_getD hi, generateTimestamps_getD (by omega)]
  push_cast
  ring

/-! ### Snapshot times are exactly the sampled instants -/

lemma applyEvent_time (cc : ChangesetCounts) (e : Event) :
    (applyEvent cc e).time = cc.time := by
  unfold applyEvent
  cases e.kind <;> rfl

lemma foldl_applyEvent_time (l : List Event) (cc : ChangesetCounts) :
    (l.foldl applyEvent cc).time = cc.time := by
  induction l generalizing cc with
  | nil => rfl
  | cons e l ih => rw [List.foldl_cons, ih, applyEvent_time]

lemma applyChangesetAt_time (o : Int) (evs : List Event)
    (cc : ChangesetCounts) : (applyChangesetAt o evs cc).time = cc.time := by
  unfold applyChangesetAt
  split
  · rw [foldl_applyEvent_time]
  · rfl

lemma changesetStep_map_time (sorted : List Event)
    (counts : List ChangesetCounts) (c : Changeset) :
    (changesetStep sorted counts c).map ChangesetCounts.time =
      counts.map ChangesetCounts.time := by
  unfold changesetStep
  rw [List.map_map]
  exact List.map_congr_left fun cc _ => applyChangesetAt_time _ _ cc

lemma foldl_changesetStep_map_time (sorted : List Event)
    (cs : List Changeset) (counts : List ChangesetCounts) :
    ((cs.foldl (changesetStep sorted) counts).map ChangesetCounts.time) =
      counts.map ChangesetCounts.time := by
  induction cs generalizing counts with
  | nil => rfl
  | cons c cs ih => rw [List.foldl_cons, ih, changesetStep_map_time]

/-- The `Time` fields of the snapshots are exactly the sampled instants. -/
lemma CalcCounts_map_time {start end_ : Int} {cs : List Changeset}
    {es : List Event} {counts : List ChangesetCounts}
    (h : CalcCounts start end_ cs es = .ok counts) :
    counts.map ChangesetCounts.time = generateTimestamps start end_ := by
  have hall := all_isSome_of_ok h
  rw [CalcCounts_eq_ok hall] at h
  have hcounts := Except.ok.inj h
  subst hcounts
  rw [foldl_changesetStep_map_time, List.map_map]
  have hcomp : ChangesetCounts.time ∘ emptyCounts = id := rfl
  rw [hcomp, List.map_id]

/-! ### Concrete evaluations of the sampled instants

`genTimestampsBack` is defined by well-founded recursion, so the kernel
cannot reduce it definitionally; these rewriting lemmas evaluate it on the
concrete windows used below (all times in nanoseconds, `day` =
86400000000000). -/

lemma gen_eval_0_0 : generateTimestamps 0 0 = [0] := by
  unfold generateTimestamps
  rw [genBack_cons (by decide), genBack_nil (by decide)]
  decide

lemma gen_eval_0_1 : generateTimestamps 0 86400000000000 = [0, 86400000000000] := by
  unfold generateTimestamps
  rw [genBack_cons (by decide), genBack_cons (by decide), genBack_nil (by decide)]
  decide

lemma gen_eval_0_2 : generateTimestamps 0 172800000000000 =
    [0, 86400000000000, 172800000000000] := by
  unfold generateTimestamps
  rw [genBack_cons (by decide), genBack_cons (by decide),
    genBack_cons (by decide), genBack_nil (by decide)]
  decide

lemma gen_eval_0_4 : generateTimestamps 0 345600000000000 =
    [0, 86400000000000, 172800000000000, 259200000000000, 345600000000000] := by
  unfold generateTimestamps
  rw [genBack_cons (by decide), genBack_cons (by decide),
    genBack_cons (by decide), genBack_cons (by decide),
    genBack_cons (by decide), genBack_nil (by decide)]
  decide

lemma gen_eval_neg : generateTimestamps 86400000000000 0 = [] := by
  unfold generateTimestamps
  rw [genBack_nil (by decide)]
  decide

/-! ### Additivity: each changeset contributes an independent summand -/

/-- Pointwise sum of two snapshots' counters (the time stays the left
snapshot's). -/
def addCounts (a b : ChangesetCounts) : ChangesetCounts :=
  { time := a.time, total := a.total + b.total, merged := a.merged + b.merged,
    closed := a.closed + b.closed, open_ := a.open_ + b.open_,
    openApproved := a.openApproved + b.openApproved,
    openChangesRequested := a.openChangesRequested + b.openChangesRequested,
    openPending := a.openPending + b.openPending }

/-- What one changeset contributes to the snapshot at instant `t`, computed
in isolation from the empty snapshot. -/
def changesetContrib (sorted : List Event) (c : Changeset) (t : Int) :
    ChangesetCounts :=
  applyChangesetAt (c.externalCreatedAt.getD 0)
    (sorted.filter (fun e => e.changeset = c.id)) (emptyCounts t)

/-- The sum over a changeset list of the per-changeset contributions at
instant `t`. -/
def sumContribs (sorted : List Event) (cs : List Changeset) (t : Int) :
    ChangesetCounts :=
  cs.foldl (fun acc c => addCounts acc (changesetContrib sorted c t))
    (emptyCounts t)

lemma applyEvent_addCounts (a b : ChangesetCounts) (e : Event) :
    applyEvent (addCounts a b) e = addCounts a (applyEvent b e) := by
  rcases e with ⟨t, k, id⟩
  cases k <;>
    simp only [applyEvent, addCounts, ChangesetCounts.mk.injEq, true_and,
      and_true] <;>
    first
    | trivial
    | omega

lemma foldl_applyEvent_addCounts (l : List Event) (a b : ChangesetCounts) :
    l.foldl applyEvent (addCounts a b) = addCounts a (l.foldl applyEvent b) := by
  induction l generalizing b with
  | nil => rfl
  | cons e l ih => rw [List.foldl_cons, applyEvent_addCounts, ih, List.foldl_cons]

lemma addCounts_emptyCounts (a : ChangesetCounts) (t : Int) :
    addCounts a (emptyCounts t) = a := by
  rcases a with ⟨t', x1, x2, x3, x4, x5, x6, x7⟩
  simp [addCounts, emptyCounts]

lemma emptyCounts_addCounts {b : ChangesetCounts} (t : Int) (hb : b.time = t) :
    addCounts (emptyCounts t) b = b := by
  rcases b with ⟨t', x1, x2, x3, x4, x5, x6, x7⟩
  simp only at hb
  simp [addCounts, emptyCounts, hb]

lemma addCounts_right_comm (a x y : ChangesetCounts) :
    addCounts (addCounts a x) y = addCounts (addCounts a y) x := by
  simp only [addCounts, ChangesetCounts.mk.injEq, true_and, and_true]
  omega

/-- Applying one changeset to a snapshot adds that changeset's isolated
contribution at the snapshot's instant. -/
lemma applyChangesetAt_eq_addCounts (o : Int) (evs : List Event)
    (cc : ChangesetCounts) :
    applyChangesetAt o evs cc =
      addCounts cc (applyChangesetAt o evs (emptyCounts cc.time)) := by
  by_cases h : o ≤ cc.time
  · have h1 : applyChangesetAt o evs cc =
        (evs.filter (fun e => e.timestamp ≤ cc.time)).foldl applyEvent
          { cc with total := cc.total + 1, open_ := cc.open_ + 1 } := by
      unfold applyChangesetAt
      rw [if_pos h]
    have h2 : applyChangesetAt o evs (emptyCounts cc.time) =
        (evs.filter (fun e => e.timestamp ≤ cc.time)).foldl applyEvent
          { time := cc.time, total := 1, open_ := 1 } := by
      unfold applyChangesetAt
      rw [if_pos (show o ≤ (emptyCounts cc.time).time from h)]
      rfl
    have h3 : ({ cc with total := cc.total + 1, open_ := cc.open_ + 1 }
        : ChangesetCounts) =
        addCounts cc { time := cc.time, total := 1, open_ := 1 } := by
      rcases cc with ⟨t', x1, x2, x3, x4, x5, x6, x7⟩
      simp [addCounts]
    rw [h1, h2, h3, foldl_applyEvent_addCounts]
  · have h1 : applyChangesetAt o evs cc = cc := by
      unfold applyChangesetAt
      rw [if_neg h]
    have h2 : applyChangesetAt o evs (emptyCounts cc.time) =
        emptyCounts cc.time := by
      unfold applyChangesetAt
      rw [if_neg (show ¬ o ≤ (emptyCounts cc.time).time from h)]
    rw [h1, h2, addCounts_emptyCounts]

lemma changesetStep_eq (sorted : List Event) (counts : List ChangesetCounts)
    (c : Changeset) :
    changesetStep sorted counts c =
      counts.map (fun cc => addCounts cc
        (changesetContrib sorted c cc.time)) := by
  unfold changesetStep changesetContrib
  exact List.map_congr_left fun cc _ => applyChangesetAt_eq_addCounts _ _ cc

lemma changesetContrib_time (sorted : List Event) (c : Changeset) (t : Int) :
    (changesetContrib sorted c t).time = t := by
  unfold changesetContrib
  rw [applyChangesetAt_time]
  rfl

/-- The fold over changesets acts on each snapshot independently, adding
one contribution per changeset at that snapshot's instant. -/
lemma foldl_changesetStep_eq_sum (sorted : List Event) :
    ∀ (cs : List Changeset) (counts : List ChangesetCounts),
      cs.foldl (changesetStep sorted) counts =
        counts.map (fun cc =>
          cs.foldl (fun acc c => addCounts acc
            (changesetContrib sorted c cc.time)) cc) := by
  intro cs
  induction cs with
  | nil =>
    intro counts
    simp
  | cons c cs ih =>
    intro counts
    rw [List.foldl_cons, ih, changesetStep_eq, List.map_map]
    refine List.map_congr_left fun cc _ => ?_
    simp only [Function.comp_apply, List.foldl_cons]
    have ht : (addCounts cc (changesetContrib sorted c cc.time)).time =
        cc.time := rfl
    rw [ht]

/-- Folding a right-commutative function is invariant under permutation of
the list. -/
lemma foldl_perm_of_comm {α β : Type} (g : β → α → β)
    (hg : ∀ b x y, g (g b x) y = g (g b y) x) {l₁ l₂ : List α}
    (p : l₁.Perm l₂) : ∀ b, l₁.foldl g b = l₂.foldl g b := by
  induction p with
  | nil => intro b; rfl
  | cons x p ih => intro b; rw [List.foldl_cons, List.foldl_cons, ih]
  | swap x y l => intro b; rw [List.foldl_cons, List.foldl_cons,
      List.foldl_cons, List.foldl_cons, hg]
  | trans p q ih1 ih2 => intro b; rw [ih1, ih2]

/-- `getD` through a `map`, for an index in range (defaults irrelevant). -/
lemma getD_map_of_lt {α β : Type} (f : α → β) (l : List α) (i : Nat)
    (h : i < l.length) (d : β) (d' : α) :
    (l.map f).getD i d = f (l.getD i d') := by
  rw [List.getD_eq_getElem?_getD, List.getElem?_map,
    List.getElem?_eq_getElem h, List.getD_eq_getElem?_getD,
    List.getElem?_eq_getElem h]
  rfl

/-- `CalcCounts` on a single changeset returns exactly that changeset's
isolated contribution at every sampled instant. -/
lemma CalcCounts_singleton {c : Changeset} (hc : c.externalCreatedAt.isSome)
    (start end_ : Int) (es : List Event) :
    CalcCounts start end_ [c] es =
      .ok ((generateTimestamps start end_).map
        (changesetContrib (sortEvents es) c)) := by
  rw [CalcCounts_eq_ok (by intro c' hm; rw [List.mem_singleton.mp hm]; exact hc)]
  rw [List.foldl_cons, List.foldl_nil, changesetStep_eq, List.map_map]
  refine congrArg Except.ok (List.map_congr_left fun t _ => ?_)
  simp only [Function.comp_apply]
  have ht : (emptyCounts t).time = t := rfl
  rw [ht]
  exact emptyCounts_addCounts t (changesetContrib_time _ _ _)

/-! ### The claims -/

/-- C3: for `start ≤ end` the sampled instant sequence is nonempty, ends
exactly on `end`, starts at or after `start`, is strictly ascending with
consecutive elements exactly 24 hours apart, and the `Time` fields of the
snapshots `CalcCounts` returns are exactly this sequence. -/
theorem c3_sampled_instants (start end_ : Int) (h : start ≤ end_) :
    generateTimestamps start end_ ≠ [] ∧
    (generateTimestamps start end_).getLast? = some end_ ∧
    (∀ x ∈ generateTimestamps start end_, start ≤ x ∧ x ≤ end_) ∧
    List.Chain' (· < ·) (generateTimestamps start end_) ∧
    (∀ i : Nat, i + 1 < (generateTimestamps start end_).length →
      (generateTimestamps start end_).getD (i + 1) 0 =
        (generateTimestamps start end_).getD i 0 + day) ∧
    ∀ (cs : List Changeset) (es : List Event) (counts : List ChangesetCounts),
      CalcCounts start end_ cs es = .ok counts →
        counts.map ChangesetCounts.time = generateTimestamps start end_ := by
  refine ⟨generateTimestamps_ne_nil h, generateTimestamps_getLast h,
    generateTimestamps_mem, ?_, fun i hi => generateTimestamps_step i hi,
    fun cs es counts hok => CalcCounts_map_time hok⟩
  refine List.chain'_iff_get.mpr ?_
  intro i hlt
  have hi1 : i + 1 < (generateTimestamps start end_).length := by omega
  rw [list_get_eq_getD _ _ (by omega), list_get_eq_getD _ _ hi1,
    generateTimestamps_step i hi1]
  have hd : day = 86400000000000 := by decide
  rw [hd]
  omega

/-- Witness for C3 at the concrete window `[0, day]`. -/
theorem c3_sampled_instants_witness :
    (0 : Int) ≤ day ∧
    (generateTimestamps 0 day ≠ [] ∧
    (generateTimestamps 0 day).getLast? = some day ∧
    (∀ x ∈ generateTimestamps 0 day, 0 ≤ x ∧ x ≤ day) ∧
    List.Chain' (· < ·) (generateTimestamps 0 day) ∧
    (∀ i : Nat, i + 1 < (generateTimestamps 0 day).length →
      (generateTimestamps 0 day).getD (i + 1) 0 =
        (generateTimestamps 0 day).getD i 0 + day) ∧
    ∀ (cs : List Changeset) (es : List Event) (counts : List ChangesetCounts),
      CalcCounts 0 day cs es = .ok counts →
        counts.map ChangesetCounts.time = generateTimestamps 0 day) :=
  ⟨by decide, c3_sampled_instants 0 day (by decide)⟩

/-- C5: a changeset without an external creation timestamp fails the whole
`CalcCounts` invocation with the missing-creation-time error; no snapshot
list is returned. -/
theorem c5_missing_creation_time (start end_ : Int) (cs : List Changeset)
    (es : List Event) (h : ∃ c ∈ cs, c.externalCreatedAt = none) :
    CalcCounts start end_ cs es = .error .missingCreationTime :=
  CalcCounts_eq_error h start end_ es

/-- Witness for C5: a batch holding one changeset with a creation time and
one without fails as a whole. -/
theorem c5_missing_creation_time_witness :
    (∃ c ∈ [Changeset.mk 1 (some 0), Changeset.mk 2 none],
      c.externalCreatedAt = none) ∧
    CalcCounts 0 day [Changeset.mk 1 (some 0), Changeset.mk 2 none] [] =
      .error .missingCreationTime :=
  ⟨by decide, c5_missing_creation_time 0 day _ [] (by decide)⟩

/-- C9: every snapshot `CalcCounts` returns satisfies
`Open + Closed + Merged = Total`: the opened-changeset contribution adds 1
to both sides and every event application preserves the identity. -/
theorem c9_open_closed_merged_total (start end_ : Int) (cs : List Changeset)
    (es : List Event) (counts : List ChangesetCounts)
    (h : CalcCounts start end_ cs es = .ok counts) :
    ∀ cc ∈ counts, cc.open_ + cc.closed + cc.merged = cc.total := by
  refine CalcCounts_inv ?_ ?_ ?_ h
  · intro t
    rfl
  · intro cc hcc
    dsimp only
    omega
  · intro cc e hcc
    rcases e with ⟨t, k, id⟩
    cases k <;> dsimp only [applyEvent] <;> omega

/-- Witness for C9 at a concrete run with a closed event. -/
theorem c9_open_closed_merged_total_witness :
    CalcCounts 0 0 [Changeset.mk 1 (some 0)]
        [Event.mk 0 .closed 1] =
      .ok [{ time := 0, total := 1, closed := 1 }] ∧
    ∀ cc ∈ [({ time := 0, total := 1, closed := 1 } : ChangesetCounts)],
      cc.open_ + cc.closed + cc.merged = cc.total := by
  have hok : CalcCounts 0 0 [Changeset.mk 1 (some 0)] [Event.mk 0 .closed 1] =
      .ok [{ time := 0, total := 1, closed := 1 }] := by
    simp only [CalcCounts, gen_eval_0_0]
    rfl
  exact ⟨hok, c9_open_closed_merged_total 0 0 _ _ _ hok⟩

/-- C7 (amended): every snapshot has non-negative `Total`, `Merged`,
`OpenApproved`, `OpenChangesRequested` and `OpenPending`; `Open` and
`Closed` are not in general non-negative (see the counterexample). -/
theorem c7_five_counters_nonneg (start end_ : Int) (cs : List Changeset)
    (es : List Event) (counts : List ChangesetCounts)
    (h : CalcCounts start end_ cs es = .ok counts) :
    ∀ cc ∈ counts, 0 ≤ cc.total ∧ 0 ≤ cc.merged ∧ 0 ≤ cc.openApproved ∧
      0 ≤ cc.openChangesRequested ∧ 0 ≤ cc.openPending := by
  refine CalcCounts_inv ?_ ?_ ?_ h
  · intro t
    exact ⟨le_refl 0, le_refl 0, le_refl 0, le_refl 0, le_refl 0⟩
  · intro cc hcc
    obtain ⟨h1, h2, h3, h4, h5⟩ := hcc
    dsimp only
    exact ⟨by omega, h2, h3, h4, h5⟩
  · intro cc e hcc
    obtain ⟨h1, h2, h3, h4, h5⟩ := hcc
    rcases e with ⟨t, k, id⟩
    cases k <;> dsimp only [applyEvent] <;> exact ⟨by omega, by omega, h3, h4, h5⟩

/-- Counterexample to C7 as stated: a lone reopened event (no prior close)
drives `Closed` to −1, so not all seven counters are non-negative. -/
theorem c7_counterexample :
    CalcCounts 0 0 [Changeset.mk 1 (some 0)] [Event.mk 0 .reopened 1] =
      .ok [{ time := 0, total := 1, closed := -1, open_ := 2 }] ∧
    ¬ ∀ cc ∈ [({ time := 0, total := 1, closed := -1, open_ := 2 } : ChangesetCounts)],
      0 ≤ cc.total ∧ 0 ≤ cc.merged ∧ 0 ≤ cc.closed ∧ 0 ≤ cc.open_ ∧
        0 ≤ cc.openApproved ∧ 0 ≤ cc.openChangesRequested ∧
        0 ≤ cc.openPending := by
  constructor
  · simp only [CalcCounts, gen_eval_0_0]
    rfl
  · decide

/-- Witness for C7 (amended) at the same concrete run. -/
theorem c7_five_counters_nonneg_witness :
    CalcCounts 0 0 [Changeset.mk 1 (some 0)] [Event.mk 0 .reopened 1] =
      .ok [{ time := 0, total := 1, closed := -1, open_ := 2 }] ∧
    ∀ cc ∈ [({ time := 0, total := 1, closed := -1, open_ := 2 } : ChangesetCounts)],
      0 ≤ cc.total ∧ 0 ≤ cc.merged ∧ 0 ≤ cc.openApproved ∧
        0 ≤ cc.openChangesRequested ∧ 0 ≤ cc.openPending := by
  have hok : CalcCounts 0 0 [Changeset.mk 1 (some 0)] [Event.mk 0 .reopened 1] =
      .ok [{ time := 0, total := 1, closed := -1, open_ := 2 }] := by
    simp only [CalcCounts, gen_eval_0_0]
    rfl
  exact ⟨hok, c7_five_counters_nonneg 0 0 _ _ _ hok⟩

/-- C10: with `end < start` the sampled sequence is empty and `CalcCounts`
returns an empty snapshot list when every changeset has a creation time —
but it still iterates the changesets, so a missing creation time fails the
call even over the empty window. -/
theorem c10_empty_window (start end_ : Int) (cs : List Changeset)
    (es : List Event) (h : end_ < start) :
    generateTimestamps start end_ = [] ∧
    ((∀ c ∈ cs, c.externalCreatedAt.isSome) →
      CalcCounts start end_ cs es = .ok []) ∧
    ((∃ c ∈ cs, c.externalCreatedAt = none) →
      CalcCounts start end_ cs es = .error .missingCreationTime) := by
  refine ⟨generateTimestamps_nil h, ?_, fun hex => CalcCounts_eq_error hex _ _ _⟩
  intro hall
  rw [CalcCounts_eq_ok hall, generateTimestamps_nil h]
  have hfold : ∀ (cs' : List Changeset),
      cs'.foldl (changesetStep (sortEvents es)) [] = [] := by
    intro cs'
    induction cs' with
    | nil => rfl
    | cons c cs' ih => simpa [changesetStep] using ih
  rw [List.map_nil, hfold]

/-- Witness for C10: an empty window over a changeset lacking a creation
time still fails. -/
theorem c10_empty_window_witness :
    (0 : Int) < 86400000000000 ∧
    (generateTimestamps 86400000000000 0 = [] ∧
    ((∀ c ∈ [Changeset.mk 1 none], c.externalCreatedAt.isSome) →
      CalcCounts 86400000000000 0 [Changeset.mk 1 none] [] = .ok []) ∧
    ((∃ c ∈ [Changeset.mk 1 none], c.externalCreatedAt = none) →
      CalcCounts 86400000000000 0 [Changeset.mk 1 none] [] =
        .error .missingCreationTime)) :=
  ⟨by decide, c10_empty_window 86400000000000 0 [Changeset.mk 1 none] [] (by decide)⟩

/-- C4: `CalcCounts` is independent of the iteration order over
changesets — permuting the changeset list yields the identical result —
and every snapshot equals the sum, over the changesets, of the counters
each changeset contributes when computed alone at that instant. -/
theorem c4_order_independence (start end_ : Int) (cs cs' : List Changeset)
    (es : List Event) (hperm : cs.Perm cs') :
    CalcCounts start end_ cs es = CalcCounts start end_ cs' es ∧
    (∀ c : Changeset, c.externalCreatedAt.isSome →
      CalcCounts start end_ [c] es =
        .ok ((generateTimestamps start end_).map
          (changesetContrib (sortEvents es) c))) ∧
    ∀ counts : List ChangesetCounts,
      CalcCounts start end_ cs es = .ok counts →
        counts = (generateTimestamps start end_).map
          (sumContribs (sortEvents es) cs) := by
  refine ⟨?_, fun c hc => CalcCounts_singleton hc start end_ es, ?_⟩
  · by_cases hall : ∀ c ∈ cs, c.externalCreatedAt.isSome
    · have hall' : ∀ c ∈ cs', c.externalCreatedAt.isSome :=
        fun c hm => hall c (hperm.mem_iff.mpr hm)
      rw [CalcCounts_eq_ok hall, CalcCounts_eq_ok hall']
      refine congrArg Except.ok ?_
      rw [foldl_changesetStep_eq_sum, foldl_changesetStep_eq_sum]
      refine List.map_congr_left fun cc _ => ?_
      exact foldl_perm_of_comm
        (fun acc c => addCounts acc (changesetContrib (sortEvents es) c cc.time))
        (fun b x y => addCounts_right_comm b _ _) hperm cc
    · push_neg at hall
      rcases hall with ⟨c, hm, hns⟩
      have hnone : c.externalCreatedAt = none :=
        Option.not_isSome_iff_eq_none.mp hns
      rw [CalcCounts_eq_error ⟨c, hm, hnone⟩,
        CalcCounts_eq_error ⟨c, hperm.mem_iff.mp hm, hnone⟩]
  · intro counts hok
    have hall := all_isSome_of_ok hok
    rw [CalcCounts_eq_ok hall] at hok
    have hcounts := Except.ok.inj hok
    subst hcounts
    rw [foldl_changesetStep_eq_sum, List.map_map]
    exact List.map_congr_left fun t _ => rfl

/-- Witness for C4 on two changesets in swapped order. -/
theorem c4_order_independence_witness :
    ([Changeset.mk 1 (some 0), Changeset.mk 2 (some 0)].Perm
      [Changeset.mk 2 (some 0), Changeset.mk 1 (some 0)]) ∧
    (CalcCounts 0 0 [Changeset.mk 1 (some 0), Changeset.mk 2 (some 0)]
        [Event.mk 0 .merged 1] =
      CalcCounts 0 0 [Changeset.mk 2 (some 0), Changeset.mk 1 (some 0)]
        [Event.mk 0 .merged 1] ∧
    (∀ c : Changeset, c.externalCreatedAt.isSome →
      CalcCounts 0 0 [c] [Event.mk 0 .merged 1] =
        .ok ((generateTimestamps 0 0).map
          (changesetContrib (sortEvents [Event.mk 0 .merged 1]) c))) ∧
    ∀ counts : List ChangesetCounts,
      CalcCounts 0 0 [Changeset.mk 1 (some 0), Changeset.mk 2 (some 0)]
          [Event.mk 0 .merged 1] = .ok counts →
        counts = (generateTimestamps 0 0).map
          (sumContribs (sortEvents [Event.mk 0 .merged 1])
            [Changeset.mk 1 (some 0), Changeset.mk 2 (some 0)])) :=
  ⟨List.Perm.swap (Changeset.mk 2 (some 0)) (Changeset.mk 1 (some 0)) [],
    c4_order_independence 0 0 _ _ _
      (List.Perm.swap (Changeset.mk 2 (some 0)) (Changeset.mk 1 (some 0)) [])⟩

/-- C6: on-or-before boundary semantics.  For a changeset opened at `o`:
at a sampled instant `t` with `t < o` the changeset contributes nothing
(the snapshot is the empty one); with `o ≤ t` the snapshot counts it in
`Total` and `Open` and then applies exactly its events with
`timestamp ≤ t`; and an event timestamped exactly at `t` is among the
applied events. -/
theorem c6_on_or_before_boundary (start end_ o : Int) (c : Changeset)
    (es : List Event) (counts : List ChangesetCounts)
    (hc : c.externalCreatedAt = some o)
    (hok : CalcCounts start end_ [c] es = .ok counts) :
    ∀ i : Nat, i < counts.length →
      ∀ t : Int, (counts.getD i (emptyCounts 0)).time = t →
        (t < o → counts.getD i (emptyCounts 0) = emptyCounts t) ∧
        (o ≤ t →
          counts.getD i (emptyCounts 0) =
            (((sortEvents es).filter (fun e => e.changeset = c.id)).filter
                (fun e => e.timestamp ≤ t)).foldl applyEvent
              { time := t, total := 1, open_ := 1 }) ∧
        (∀ e ∈ (sortEvents es).filter (fun e => e.changeset = c.id),
          e.timestamp = t →
            e ∈ ((sortEvents es).filter (fun e => e.changeset = c.id)).filter
              (fun e => e.timestamp ≤ t)) := by
  have hsome : c.externalCreatedAt.isSome := by rw [hc]; rfl
  rw [CalcCounts_singleton hsome] at hok
  have hcounts := Except.ok.inj hok
  subst hcounts
  intro i hi t ht
  have hlen : i < (generateTimestamps start end_).length := by
    simpa using hi
  have hgd : ((generateTimestamps start end_).map
      (changesetContrib (sortEvents es) c)).getD i (emptyCounts 0) =
      changesetContrib (sortEvents es) c
        ((generateTimestamps start end_).getD i 0) :=
    getD_map_of_lt _ _ i hlen _ 0
  rw [hgd] at ht ⊢
  rw [changesetContrib_time] at ht
  subst ht
  set u := (generateTimestamps start end_).getD i 0 with hu
  have hco : c.externalCreatedAt.getD 0 = o := by rw [hc]; rfl
  refine ⟨?_, ?_, ?_⟩
  · intro hlt
    unfold changesetContrib applyChangesetAt
    rw [hco, if_neg (show ¬ o ≤ (emptyCounts u).time from not_le.mpr hlt)]
  · intro hle
    unfold changesetContrib applyChangesetAt
    rw [hco, if_pos (show o ≤ (emptyCounts u).time from hle)]
    rfl
  · intro e he het
    exact List.mem_filter.mpr ⟨he, by simp [het]⟩

/-- Witness for C6 at a concrete run whose single event is timestamped
exactly at the sampled boundary. -/
theorem c6_on_or_before_boundary_witness :
    (Changeset.mk 1 (some 0)).externalCreatedAt = some 0 ∧
    CalcCounts 0 0 [Changeset.mk 1 (some 0)] [Event.mk 0 .closed 1] =
      .ok [{ time := 0, total := 1, closed := 1 }] ∧
    (∀ i : Nat,
      i < ([{ time := 0, total := 1, closed := 1 }] :
        List ChangesetCounts).length →
      ∀ t : Int,
        (([{ time := 0, total := 1, closed := 1 }] :
          List ChangesetCounts).getD i (emptyCounts 0)).time = t →
        (t < 0 → ([{ time := 0, total := 1, closed := 1 }] :
          List ChangesetCounts).getD i (emptyCounts 0) = emptyCounts t) ∧
        (0 ≤ t →
          ([{ time := 0, total := 1, closed := 1 }] :
            List ChangesetCounts).getD i (emptyCounts 0) =
            (((sortEvents [Event.mk 0 .closed 1]).filter
                (fun e => e.changeset = (Changeset.mk 1 (some 0)).id)).filter
                (fun e => e.timestamp ≤ t)).foldl applyEvent
              { time := t, total := 1, open_ := 1 }) ∧
        (∀ e ∈ (sortEvents [Event.mk 0 .closed 1]).filter
            (fun e => e.changeset = (Changeset.mk 1 (some 0)).id),
          e.timestamp = t →
            e ∈ ((sortEvents [Event.mk 0 .closed 1]).filter
                (fun e => e.changeset = (Changeset.mk 1 (some 0)).id)).filter
              (fun e => e.timestamp ≤ t))) := by
  have hok : CalcCounts 0 0 [Changeset.mk 1 (some 0)] [Event.mk 0 .closed 1] =
      .ok [{ time := 0, total := 1, closed := 1 }] := by
    simp only [CalcCounts, gen_eval_0_0]
    rfl
  exact ⟨rfl, hok,
    c6_on_or_before_boundary 0 0 0 (Changeset.mk 1 (some 0)) _ _ rfl hok⟩

/-- C1 (divergence of the code from the spec and the repo's own test
"changeset merged and closed at same time"): with merged and closed events
at the identical timestamp the code applies both, yielding `Merged = 1`,
`Closed = 1` and `Open = -1` at and after that instant — not `Merged = 1`,
`Closed = 0` — in either input order of the two events. -/
theorem c1_merge_close_same_time_divergence :
    CalcCounts 0 172800000000000 [Changeset.mk 1 (some 0)]
        [Event.mk 86400000000000 .merged 1, Event.mk 86400000000000 .closed 1] =
      .ok [{ time := 0, total := 1, open_ := 1 },
        { time := 86400000000000, total := 1, merged := 1, closed := 1, open_ := -1 },
        { time := 172800000000000, total := 1, merged := 1, closed := 1, open_ := -1 }] ∧
    CalcCounts 0 172800000000000 [Changeset.mk 1 (some 0)]
        [Event.mk 86400000000000 .closed 1, Event.mk 86400000000000 .merged 1] =
      .ok [{ time := 0, total := 1, open_ := 1 },
        { time := 86400000000000, total := 1, merged := 1, closed := 1, open_ := -1 },
        { time := 172800000000000, total := 1, merged := 1, closed := 1, open_ := -1 }] := by
  constructor
  · simp only [CalcCounts, gen_eval_0_2]
    rfl
  · simp only [CalcCounts, gen_eval_0_2]
    rfl

/-- C2 (divergence of the code from the spec and the repo's own test
"single changeset open, pending review, approved, merged"): the event
switch in counts.go has no case for review events, so a review marked
APPROVED leaves `OpenApproved` at 0 at every sampled instant, where the
test expects `0 → 1 → 0`. -/
theorem c2_review_events_ignored_divergence :
    CalcCounts 0 345600000000000 [Changeset.mk 1 (some 86400000000000)]
        [Event.mk 172800000000000 (.reviewed "APPROVED") 1,
          Event.mk 259200000000000 .merged 1] =
      .ok [{ time := 0 },
        { time := 86400000000000, total := 1, open_ := 1 },
        { time := 172800000000000, total := 1, open_ := 1 },
        { time := 259200000000000, total := 1, merged := 1 },
        { time := 345600000000000, total := 1, merged := 1 }] := by
  simp only [CalcCounts, gen_eval_0_4]
  rfl

end A8N

/-!
## Webhook signature scheme

`sign` from the webhook test harness (`src/cmd/repo-updater/build.sh`
concatenation, `sign(message, secret []byte) string`): HMAC-SHA256 of the
raw body under the secret, hex-encoded and prefixed with `sha256=`.
SHA-256 follows FIPS 180-4 and HMAC follows RFC 2104 with a 64-byte block,
as Go's `crypto/sha256` and `crypto/hmac` implement them; bytes are `Nat`
values kept below 256 by construction.
-/

namespace Webhook

/-- Truncation to a 32-bit word. -/
def w32 (n : Nat) : Nat := n % 4294967296

/-- 32-bit rotate right. -/
def rotr (x n : Nat) : Nat := w32 ((x >>> n) ||| (x <<< (32 - n)))

/-- The 64 SHA-256 round constants of FIPS 180-4, in decimal. -/
def sha256K : List Nat :=
  [1116352408, 1899447441, 3049323471, 3921009573, 961987163,
   1508970993, 2453635748, 2870763221, 3624381080, 310598401,
   607225278, 1426881987, 1925078388, 2162078206, 2614888103,
   3248222580, 3835390401, 4022224774, 264347078, 604807628,
   770255983, 1249150122, 1555081692, 1996064986, 2554220882,
   2821834349, 2952996808, 3210313671, 3336571891, 3584528711,
   113926993, 338241895, 666307205, 773529912, 1294757372,
   1396182291, 1695183700, 1986661051, 2177026350, 2456956037,
   2730485921, 2820302411, 3259730800, 3345764771, 3516065817,
   3600352804, 4094571909, 275423344, 430227734, 506948616,
   659060556, 883997877, 958139571, 1322822218, 1537002063,
   1747873779, 1955562222, 2024104815, 2227730452, 2361852424,
   2428436474, 2756734187, 3204031479, 3329325298]

/-- The initial SHA-256 hash state, in decimal. -/
def sha256H0 : List Nat :=
  [1779033703, 3144134277, 1013904242, 2773480762,
   1359893119, 2600822924, 528734635, 1541459225]

/-- `k` big-endian bytes of `n`. -/
def beBytes (k n : Nat) : List Nat :=
  (List.range k).map (fun i => (n >>> (8 * (k - 1 - i))) % 256)

/-- A 64-byte block as 16 big-endian 32-bit words. -/
def wordsOfBlock (block : List Nat) : List Nat :=
  (List.range 16).map (fun i =>
    block.getD (4 * i) 0 * 16777216 + block.getD (4 * i + 1) 0 * 65536 +
      block.getD (4 * i + 2) 0 * 256 + block.getD (4 * i + 3) 0)

/-- One step of the message-schedule extension. -/
def extendStep (ws : List Nat) : List Nat :=
  let n := ws.length
  let x15 := ws.getD (n - 15) 0
  let x2 := ws.getD (n - 2) 0
  let s0 := rotr x15 7 ^^^ rotr x15 18 ^^^ (x15 >>> 3)
  let s1 := rotr x2 17 ^^^ rotr x2 19 ^^^ (x2 >>> 10)
  ws ++ [w32 (ws.getD (n - 16) 0 + s0 + ws.getD (n - 7) 0 + s1)]

/-- The full 64-word message schedule of a block. -/
def schedule (block : List Nat) : List Nat :=
  (List.range 48).foldl (fun ws _ => extendStep ws) (wordsOfBlock block)

/-- One SHA-256 compression round on the 8-word state. -/
def compressStep (st : List Nat) (kw : Nat × Nat) : List Nat :=
  let a := st.getD 0 0
  let b := st.getD 1 0
  let c := st.getD 2 0
  let d := st.getD 3 0
  let e := st.getD 4 0
  let f := st.getD 5 0
  let g := st.getD 6 0
  let h := st.getD 7 0
  let S1 := rotr e 6 ^^^ rotr e 11 ^^^ rotr e 25
  let ch := (e &&& f) ^^^ ((e ^^^ 4294967295) &&& g)
  let t1 := w32 (h + S1 + ch + kw.1 + kw.2)
  let S0 := rotr a 2 ^^^ rotr a 13 ^^^ rotr a 22
  let maj := (a &&& b) ^^^ (a &&& c) ^^^ (b &&& c)
  let t2 := w32 (S0 + maj)
  [w32 (t1 + t2), a, b, c, w32 (d + t1), e, f, g]

/-- Compress one 64-byte block into the running state. -/
def compressBlock (st : List Nat) (block : List Nat) : List Nat :=
  let final := (sha256K.zip (schedule block)).foldl compressStep st
  (st.zip final).map (fun p => w32 (p.1 + p.2))

/-- FIPS 180-4 padding: `0x80`, zeros to 56 mod 64, 8-byte bit length. -/
def padMessage (msg : List Nat) : List Nat :=
  msg ++ 128 :: List.replicate ((120 - (msg.length + 1) % 64) % 64) 0 ++
    beBytes 8 (8 * msg.length)

/-- Split a byte list into 64-byte blocks. -/
def chunks64 (l : List Nat) : List (List Nat) :=
  if h : l = [] then [] else l.take 64 :: chunks64 (l.drop 64)
  termination_by l.length
  decreasing_by
    simp [List.length_drop]
    exact List.length_pos.mpr h

/-- SHA-256 of a byte list. -/
def sha256 (msg : List Nat) : List Nat :=
  (((chunks64 (padMessage msg)).foldl compressBlock sha256H0).map
    (beBytes 4)).flatten

/-- The bytes of a string, as Go's `[]byte(s)` for ASCII data. -/
def strBytes (s : String) : List Nat := s.data.map Char.toNat

/-- Lowercase hex digits, as Go's `encoding/hex` table `hextable`. -/
def hexDigits : List Char := "0123456789abcdef".data

/-- The hex digit of a value below 16. -/
def hexDigit (n : Nat) : Char := hexDigits.getD n 'x'

/-- `hex.EncodeToString` at the character-list level: two lowercase hex
digits per byte. -/
def hexEncodeL (bs : List Nat) : List Char :=
  bs.foldr (fun b acc => hexDigit (b / 16) :: hexDigit (b % 16) :: acc) []

/-- `hex.EncodeToString`. -/
def hexEncode (bs : List Nat) : String := String.mk (hexEncodeL bs)

/-- RFC 2104 key preparation: hash keys longer than the 64-byte block,
then pad with zero bytes to the block size. -/
def padKey (key : List Nat) : List Nat :=
  if 64 < key.length then
    sha256 key ++ List.replicate (64 - (sha256 key).length) 0
  else
    key ++ List.replicate (64 - key.length) 0

/-- HMAC-SHA256, as Go's `hmac.New(sha256.New, key)` followed by a write
of `msg`: `H((K ^ opad) || H((K ^ ipad) || msg))` with `ipad = 0x36` and
`opad = 0x5c`. -/
def hmacSha256 (key msg : List Nat) : List Nat :=
  sha256 ((padKey key).map (fun b => b ^^^ 92) ++
    sha256 ((padKey key).map (fun b => b ^^^ 54) ++ msg))

/-- `sign` from the webhook test harness: the `X-Hub-Signature` value for
a message under a secret. -/
def sign (message secret : List Nat) : String :=
  "sha256=" ++ hexEncode (hmacSha256 secret message)

/-- Modelled from the spec: the verification side of the gateway
(`GitHubWebhook.ServeHTTP` and the payload validation it calls are not
under `src/`) succeeds exactly when the candidate secret combined with the
raw body through HMAC-SHA256 reproduces the claimed signature string —
hex-encoded and prefixed with the algorithm tag — exactly. -/
def verify (body : List Nat) (signature : String) (secret : List Nat) :
    Bool :=
  signature == sign body secret

/-! ### Lemmas about signing and verification -/

lemma verify_sign_self (body secret : List Nat) :
    verify body (sign body secret) secret = true := by
  simp [verify]

/-- Two keys that pad to the same HMAC key: appending a zero byte to a
short key does not change `padKey`. -/
lemma padKey_append_zero (key : List Nat) (h : key.length ≤ 63) :
    padKey (key ++ [0]) = padKey key := by
  unfold padKey
  rw [if_neg (by simp; omega), if_neg (by omega)]
  rw [List.append_assoc]
  refine congrArg (key ++ ·) ?_
  have hlen : (key ++ [0]).length = key.length + 1 := by simp
  rw [hlen]
  have hsucc : 64 - key.length = (64 - (key.length + 1)) + 1 := by omega
  rw [hsucc, List.replicate_succ]
  rfl

lemma hmac_append_zero (key : List Nat) (h : key.length ≤ 63)
    (msg : List Nat) : hmacSha256 (key ++ [0]) msg = hmacSha256 key msg := by
  unfold hmacSha256
  rw [padKey_append_zero key h]

lemma beBytes_lt {k n : Nat} : ∀ x ∈ beBytes k n, x < 256 := by
  intro x hx
  rcases List.mem_map.mp hx with ⟨i, _, rfl⟩
  exact Nat.mod_lt _ (by decide)

lemma sha256_lt (msg : List Nat) : ∀ x ∈ sha256 msg, x < 256 := by
  intro x hx
  unfold sha256 at hx
  rcases List.mem_flatten.mp hx with ⟨l, hl, hxl⟩
  rcases List.mem_map.mp hl with ⟨w, _, rfl⟩
  exact beBytes_lt x hxl

lemma hexDigit_inj : ∀ a < 16, ∀ b < 16, hexDigit a = hexDigit b → a = b := by
  decide

/-- Hex encoding is injective on byte lists. -/
lemma hexEncodeL_inj : ∀ (bs cs : List Nat), (∀ x ∈ bs, x < 256) →
    (∀ x ∈ cs, x < 256) → hexEncodeL bs = hexEncodeL cs → bs = cs := by
  intro bs
  induction bs with
  | nil =>
    intro cs _ _ h
    cases cs with
    | nil => rfl
    | cons c cs => simp [hexEncodeL] at h
  | cons b bs ih =>
    intro cs hb hc h
    cases cs with
    | nil => simp [hexEncodeL] at h
    | cons c cs =>
      have hb256 : b < 256 := hb b (by simp)
      have hc256 : c < 256 := hc c (by simp)
      simp only [hexEncodeL, List.foldr_cons] at h
      injection h with h1 h'
      injection h' with h2 h3
      have e1 : b / 16 = c / 16 :=
        hexDigit_inj _ (by omega) _ (by omega) h1
      have e2 : b % 16 = c % 16 :=
        hexDigit_inj _ (by omega) _ (by omega) h2
      have hbc : b = c := by omega
      subst hbc
      have htail : bs = cs :=
        ih cs (fun x hx => hb x (by simp [hx]))
          (fun x hx => hc x (by simp [hx])) h3
      rw [htail]

/-- Two signatures over the same body agree exactly when the HMAC digests
under the two secrets agree. -/
lemma sign_eq_iff (body w s : List Nat) :
    sign body w = sign body s ↔
      hmacSha256 w body = hmacSha256 s body := by
  constructor
  · intro h
    have hdata : "sha256=".data ++ hexEncodeL (hmacSha256 w body) =
        "sha256=".data ++ hexEncodeL (hmacSha256 s body) :=
      congrArg String.data h
    have hhex := List.append_cancel_left hdata
    exact hexEncodeL_inj _ _ (fun x hx => sha256_lt _ x hx)
      (fun x hx => sha256_lt _ x hx) hhex
  · intro h
    unfold sign hexEncode
    rw [h]

/-! ### The claims -/

/-- C8 (amended): verifying the signature produced by signing a body with
a secret always succeeds; verification of that signature against another
secret succeeds exactly when the other secret yields the same HMAC-SHA256
digest over the body (which can happen for a different secret — see the
counterexample — since HMAC pads short keys with zero bytes). -/
theorem c8_sign_verify (body secret wrongSecret : List Nat) :
    verify body (sign body secret) secret = true ∧
    (verify body (sign body secret) wrongSecret = true ↔
      hmacSha256 wrongSecret body = hmacSha256 secret body) := by
  refine ⟨verify_sign_self body secret, ?_⟩
  unfold verify
  constructor
  · intro h
    have heq : sign body secret = sign body wrongSecret := eq_of_beq h
    exact (sign_eq_iff body wrongSecret secret).mp heq.symm
  · intro h
    have heq : sign body wrongSecret = sign body secret :=
      (sign_eq_iff body wrongSecret secret).mpr h
    rw [heq]
    simp

/-- Counterexample to C8 as stated: the secret `"secret"` and the
different secret `"secret\x00"` produce the same HMAC key after zero
padding, so verification of the signature under the wrong secret
succeeds. -/
theorem c8_counterexample :
    ¬ ([115, 101, 99, 114, 101, 116, 0] =
      ([115, 101, 99, 114, 101, 116] : List Nat)) ∧
    verify [98, 111, 100, 121]
      (sign [98, 111, 100, 121] [115, 101, 99, 114, 101, 116])
      [115, 101, 99, 114, 101, 116, 0] = true := by
  refine ⟨by decide, ?_⟩
  unfold verify
  have happ : ([115, 101, 99, 114, 101, 116, 0] : List Nat) =
      [115, 101, 99, 114, 101, 116] ++ [0] := rfl
  have hpad := hmac_append_zero [115, 101, 99, 114, 101, 116] (by decide)
    [98, 111, 100, 121]
  have hsign : sign [98, 111, 100, 121] [115, 101, 99, 114, 101, 116, 0] =
      sign [98, 111, 100, 121] [115, 101, 99, 114, 101, 116] := by
    unfold sign
    rw [happ, hpad]
  rw [hsign]
  simp

end Webhook
